import Mathlib

/- Shallow embedding of src/PatternSeeker.hpp (C++ namespace PatterSeekerNS).

   A `PatternSeeker` value models the C++ object state.  The underlying
   character buffer, from the origin pointer `m_originalPointer` up to the
   terminating NUL, is `pre ++ view ++ tail`, where

   - `pre`  : the characters between `m_originalPointer` and `m_str.data()`;
   - `view` : the characters of the window `m_str` (the visible part);
   - `tail` : the characters after the window, up to the terminating NUL of
              the underlying buffer (`std::strtoull` may read and consume
              them, since it is bounded only by the NUL, not by the window).

   `getOffset()` = `m_str.data() - m_originalPointer` = `pre.length`.
   The empty sentinel (default constructor: `m_str` and `m_originalPointer`
   both point at the static `EMPTY_STR`) is `pre = view = tail = []`.

   Operations that in C++ mutate `*this` are embedded as functions returning
   `result × PatternSeeker` (the new receiver state); `const` operations
   return only their result.  Calls whose C++ behavior is undefined
   (`string_view::remove_prefix(n)` with `n > size()`) return `Option.none`
   from an `Option`-valued embedding. -/

namespace PatterSeekerNS

/-- C-locale `isspace`, as used by `skipWhiteSpaces` and by `strtoull`. -/
def isspace (c : Char) : Bool :=
  c = ' ' || c = '\t' || c = '\n' || c = '\x0b' || c = '\x0c' || c = '\r'

/-- ASCII decimal digit test (base-10 grammar of `strtoull`). -/
def isdigit (c : Char) : Bool :=
  '0' ≤ c && c ≤ '9'

/-- Numeric value of one decimal digit. -/
def digitVal (c : Char) : Nat :=
  c.toNat - '0'.toNat

/-- Value of a run of decimal digits, most significant first. -/
def digitsVal (l : List Char) : Nat :=
  l.foldl (fun a c => a * 10 + digitVal c) 0

/-- `std::string_view::find(pat)`: index of the first occurrence of `pat`
    in `hay` (an occurrence at `i` needs `i + pat.length ≤ hay.length`),
    `none` playing the role of `npos`. -/
def findSub (hay pat : List Char) : Option Nat :=
  match hay with
  | [] => if pat.isPrefixOf ([] : List Char) then some 0 else none
  | c :: rest =>
    if pat.isPrefixOf (c :: rest) then some 0
    else (findSub rest pat).map (· + 1)

/-- `std::string_view::find(pat, pos)`: first occurrence at index ≥ `pos`;
    returns `npos` (here `none`) when `pos > hay.length`. -/
def findFrom (hay pat : List Char) (pos : Nat) : Option Nat :=
  if pos ≤ hay.length then (findSub (hay.drop pos) pat).map (· + pos) else none

/-- `std::string_view::find_first_of(cs)`: index of the first character of
    `hay` that belongs to `cs`. -/
def findFirstOf : List Char → List Char → Option Nat
  | [], _ => none
  | c :: rest, cs =>
    if cs.contains c then some 0 else (findFirstOf rest cs).map (· + 1)

/-- `std::string_view::rfind(pat)`: index of the last occurrence of `pat`. -/
def rfindSub (hay pat : List Char) : Option Nat :=
  match hay with
  | [] => if pat.isPrefixOf ([] : List Char) then some 0 else none
  | c :: rest =>
    match rfindSub rest pat with
    | some j => some (j + 1)
    | none => if pat.isPrefixOf (c :: rest) then some 0 else none

/-- Length (0 or 1) of the optional sign of the `strtoull` grammar. -/
def signLenOf (s : List Char) : Nat :=
  match s with
  | c :: _ => if c = '+' || c = '-' then 1 else 0
  | [] => 0

/-- Whether the sign position of the `strtoull` subject sequence holds `-`. -/
def isNegOf (s : List Char) : Bool :=
  match s with
  | c :: _ => c = '-'
  | [] => false

/-- The base-10 grammar of `std::strtoull(p, &end, 10)` on the NUL-bounded
    character sequence `s`: optional C-whitespace, then an optional single
    `+` or `-` sign, then the longest run of decimal digits.  Returns
    `(end - p, value, errno set)`:  with zero digits no conversion happens
    (`end = p`, value 0); on overflow of the unsigned 64-bit range the value
    is `ULLONG_MAX` and `errno = ERANGE`; a `-` sign negates the converted
    magnitude in the return type, i.e. modulo 2^64. -/
def strtoull10 (s : List Char) : Nat × Nat × Bool :=
  let ws := s.takeWhile isspace
  let s1 := s.drop ws.length
  let signLen := signLenOf s1
  let ds := (s1.drop signLen).takeWhile isdigit
  if ds.isEmpty then (0, 0, false)
  else
    let m := digitsVal ds
    let consumed := ws.length + signLen + ds.length
    if m > 2 ^ 64 - 1 then (consumed, 2 ^ 64 - 1, true)
    else (consumed, if isNegOf s1 then (2 ^ 64 - m) % 2 ^ 64 else m, false)

/-- The enum `MoveMode` of the source. -/
inductive MoveMode
  | none
  | move_before
  | move_after
deriving DecidableEq

/-- The `PatternSeeker` object state; see the header comment of this file. -/
structure PatternSeeker where
  pre : List Char
  view : List Char
  tail : List Char
deriving DecidableEq

namespace PatternSeeker

/-- The default-constructed empty sentinel (`m_str = m_originalPointer =
    EMPTY_STR`). -/
def sentinel : PatternSeeker := ⟨[], [], []⟩

/-- The public constructor `PatternSeeker(std::string_view)` applied to a
    view with contents `v`, the underlying buffer continuing with `t` up to
    its NUL: the origin is derived from the view itself, so `pre = []`. -/
def mkRoot (v t : List Char) : PatternSeeker := ⟨[], v, t⟩

/-- The whole underlying buffer, from the origin pointer to the NUL. -/
def buffer (p : PatternSeeker) : List Char := p.pre ++ p.view ++ p.tail

/-- `size()`. -/
def size (p : PatternSeeker) : Nat := p.view.length

/-- `isEmpty()`. -/
def isEmpty (p : PatternSeeker) : Bool := p.size == 0

/-- `isNotEmpty()`. -/
def isNotEmpty (p : PatternSeeker) : Bool := p.size != 0

/-- `getOriginalPosition()` = `m_str.data() - m_originalPointer`. -/
def getOriginalPosition (p : PatternSeeker) : Nat := p.pre.length

/-- `getOffset()` = `m_str.data() - m_originalPointer` (same body in the
    source as `getOriginalPosition`). -/
def getOffset (p : PatternSeeker) : Nat := p.pre.length

/-- `m_str.remove_prefix(n)` for `n ≤ size` (every use of this helper in
    this file is at a call site where the C++ guarantees the bound). -/
def advance (p : PatternSeeker) (n : Nat) : PatternSeeker :=
  ⟨p.pre ++ p.view.take n, p.view.drop n, p.tail⟩

/-- `PatternSeeker(m_str.substr(pos, cnt), m_originalPointer)` — the private
    constructor applied to a sub-window: it shares the origin, so the new
    `pre` grows by the skipped part, and the characters of the window cut
    off on the right land in the new `tail`.  (`substr` clamps `cnt` to
    `size - pos`; all uses have `pos ≤ size`.) -/
def subPS (p : PatternSeeker) (pos cnt : Nat) : PatternSeeker :=
  ⟨p.pre ++ p.view.take pos, (p.view.drop pos).take cnt,
   (p.view.drop pos).drop cnt ++ p.tail⟩

/-- The public one-argument constructor applied to an existing window:
    `m_originalPointer` is re-derived from the window start, discarding the
    previous origin (`pre` becomes empty). -/
def reroot (p : PatternSeeker) : PatternSeeker := ⟨[], p.view, p.tail⟩

/-- `expect(expected)`: consume the literal iff the window starts with it. -/
def expect (p : PatternSeeker) (e : List Char) : Bool × PatternSeeker :=
  if e.isPrefixOf p.view then (true, p.advance e.length) else (false, p)

/-- `startsWith(expected)`: pure test (`const` in the source). -/
def startsWith (p : PatternSeeker) (e : List Char) : Bool :=
  e.isPrefixOf p.view

/-- The method `to(expected, mode)` of the source (named `seekTo` here
    because `to` is reserved): find the literal, reposition per `mode`. -/
def seekTo (p : PatternSeeker) (e : List Char) (mode : MoveMode) :
    Bool × PatternSeeker :=
  match findSub p.view e with
  | Option.none => (false, p)
  | Option.some pos =>
    match mode with
    | MoveMode.move_before => (true, p.advance pos)
    | MoveMode.move_after => (true, p.advance (pos + e.length))
    | MoveMode.none => (true, p)

/-- `extract(from, to, mode)` (the two-string overload): the slice strictly
    between the first occurrence of `f` and the first occurrence of `t`
    found searching from just after that occurrence of `f`. -/
def extractBetween (p : PatternSeeker) (f t : List Char) (mode : MoveMode) :
    PatternSeeker × PatternSeeker :=
  match findSub p.view f with
  | Option.none => (sentinel, p)
  | Option.some s0 =>
    let startIt := s0 + f.length
    match findFrom p.view t startIt with
    | Option.none => (sentinel, p)
    | Option.some endIt =>
      let sub := p.subPS startIt (endIt - startIt)
      match mode with
      | MoveMode.move_before => (sub, p.advance (startIt - f.length))
      | MoveMode.move_after => (sub, p.advance (endIt + t.length))
      | MoveMode.none => (sub, p)

/-- `extract(to, mode)` (the one-string overload): the slice from the
    current start up to the first occurrence of `t`. -/
def extractTo (p : PatternSeeker) (t : List Char) (mode : MoveMode) :
    PatternSeeker × PatternSeeker :=
  match findSub p.view t with
  | Option.none => (sentinel, p)
  | Option.some endIt =>
    let sub := p.subPS 0 endIt
    match mode with
    | MoveMode.move_before => (sub, p.advance endIt)
    | MoveMode.move_after => (sub, p.advance (endIt + t.length))
    | MoveMode.none => (sub, p)

/-- `extractUntilOneOf(cs, mode)`: the slice up to the first character that
    belongs to `cs`; only `move_after` repositions (past that character). -/
def extractUntilOneOf (p : PatternSeeker) (cs : List Char) (mode : MoveMode) :
    PatternSeeker × PatternSeeker :=
  match findFirstOf p.view cs with
  | Option.none => (sentinel, p)
  | Option.some endIt =>
    let sub := p.subPS 0 endIt
    (sub, if mode = MoveMode.move_after then p.advance (endIt + 1) else p)

/-- The scanning loop of `extract(char, char, mode)`: reading the characters
    after the opening bracket with current nesting depth `d`, returns the
    number of characters consumed up to and including the bracket that takes
    the depth to zero, or `none` if the characters run out first.  Mirrors
    `while (i < size) { ch = s[i++]; if (ch == start) ++depth; else if
    (ch == end) { --depth; if (depth == 0) break; } }`. -/
def scanBal (s e : Char) : List Char → Nat → Option Nat
  | [], _ => none
  | c :: rest, d =>
    if c = s then (scanBal s e rest (d + 1)).map (· + 1)
    else if c = e then
      if d = 1 then some 1 else (scanBal s e rest (d - 1)).map (· + 1)
    else (scanBal s e rest d).map (· + 1)

/-- `extract(start, end, mode)` (the two-char overload): the slice from the
    first `s` through the matching depth-zero `e`. -/
def extractBalanced (p : PatternSeeker) (s e : Char) (mode : MoveMode) :
    PatternSeeker × PatternSeeker :=
  match findSub p.view [s] with
  | Option.none => (sentinel, p)
  | Option.some startIndex =>
    match scanBal s e (p.view.drop (startIndex + 1)) 1 with
    | Option.none => (sentinel, p)
    | Option.some k =>
      let i := startIndex + 1 + k
      let sub := p.subPS startIndex (i - startIndex)
      match mode with
      | MoveMode.move_before => (sub, p.advance startIndex)
      | MoveMode.move_after => (sub, p.advance i)
      | MoveMode.none => (sub, p)

/-- `extract(size_t, mode)`: `substr(0, n)` truncates the result to the
    window, but `move_after` then calls `remove_prefix(n)` with the raw `n`,
    which is undefined behavior when `n > size()`; that case is `none`. -/
def extractFixed (p : PatternSeeker) (n : Nat) (mode : MoveMode) :
    Option (PatternSeeker × PatternSeeker) :=
  let sub := p.subPS 0 n
  if mode = MoveMode.move_after then
    if n ≤ p.view.length then some (sub, p.advance n) else none
  else some (sub, p)

/-- `takeUInt64()`: runs `strtoull` (base 10) on the NUL-bounded buffer
    starting at the window (`view ++ tail`), then `remove_prefix(end - p)`;
    failure (`errno` set, or nothing consumed) yields an absent optional.
    `remove_prefix` past the window end is undefined behavior (`none`); it
    cannot happen while the window extends to the end of the buffer. -/
def takeUInt64 (p : PatternSeeker) : Option (Option Nat × PatternSeeker) :=
  if (strtoull10 (p.view ++ p.tail)).1 ≤ p.view.length then
    some
      (if (strtoull10 (p.view ++ p.tail)).2.2 ||
          (strtoull10 (p.view ++ p.tail)).1 = 0 then none
       else some (strtoull10 (p.view ++ p.tail)).2.1,
       p.advance (strtoull10 (p.view ++ p.tail)).1)
  else none

/-- `skipWhiteSpaces()`: drop the maximal run of C-whitespace characters. -/
def skipWhiteSpaces (p : PatternSeeker) : PatternSeeker :=
  ⟨p.pre ++ p.view.takeWhile isspace, p.view.dropWhile isspace, p.tail⟩

/-- The double quote character (static `DOUBLE_QUOTE` of the source). -/
def quoteChar : Char := '"'

/-- `getJsonProp(prop)`: works on a copy; the receiver (second component) is
    returned untouched, exactly as the C++ method never writes `*this`. -/
def getJsonProp (p : PatternSeeker) (prop : List Char) :
    PatternSeeker × PatternSeeker :=
  let r1 := p.seekTo (quoteChar :: (prop ++ [quoteChar])) MoveMode.move_after
  if r1.1 = false then (sentinel, p)
  else
    let c2 := r1.2.skipWhiteSpaces
    let r2 := c2.expect [':']
    if r2.1 = false then (sentinel, p)
    else
      let c4 := r2.2.skipWhiteSpaces
      let r3 := c4.expect [quoteChar]
      if r3.1 = true then ((r3.2.extractTo [quoteChar] MoveMode.none).1, p)
      else if r3.2.startsWith ['['] then
        ((r3.2.extractBalanced '[' ']' MoveMode.none).1, p)
      else if r3.2.startsWith ['{'] then
        ((r3.2.extractBalanced '{' '}' MoveMode.none).1, p)
      else
        ((r3.2.extractUntilOneOf [',', ' ', '\r', '\n', ']', '}']
          MoveMode.none).1, p)

/-- `getXmlTag(prop, mode)`: the whole span from the first `<prop` through
    the first following `</prop>`. -/
def getXmlTag (p : PatternSeeker) (prop : List Char) (mode : MoveMode) :
    PatternSeeker × PatternSeeker :=
  let startTag := '<' :: prop
  match findSub p.view startTag with
  | Option.none => (sentinel, p)
  | Option.some startPos =>
    let endTag := '<' :: '/' :: (prop ++ ['>'])
    match findFrom p.view endTag (startPos + startTag.length) with
    | Option.none => (sentinel, p)
    | Option.some endPos =>
      let sub := p.subPS startPos (endPos + endTag.length - startPos)
      match mode with
      | MoveMode.move_before => (sub, p.advance startPos)
      | MoveMode.move_after => (sub, p.advance (endPos + endTag.length))
      | MoveMode.none => (sub, p)

/-- `getXmlTagBody(prop, mode)`: body of the tag returned by `getXmlTag`.
    The C++ returns `res.m_str.substr(startPos, endPos - startPos)`, a
    `string_view` implicitly converted through the *public* one-argument
    constructor, so the result is re-rooted at the body start (`reroot`).
    `find('>')` returning `npos` makes `startPos = npos + 1 = 0` by size_t
    wrap-around, and `endPos - startPos` is size_t subtraction mod 2^64. -/
def getXmlTagBody (p : PatternSeeker) (prop : List Char) (mode : MoveMode) :
    PatternSeeker × PatternSeeker :=
  let r := p.getXmlTag prop mode
  if r.1.isEmpty = true then (sentinel, r.2)
  else
    let startPos : Nat :=
      match findSub r.1.view ['>'] with
      | Option.some j => j + 1
      | Option.none => 0
    match rfindSub r.1.view ('<' :: '/' :: (prop ++ ['>'])) with
    | Option.none => (sentinel, r.2)
    | Option.some endPos =>
      let cnt := (endPos + (2 ^ 64 - startPos)) % 2 ^ 64
      (reroot (r.1.subPS startPos cnt), r.2)

/-- `getXmlAttr(prop)`: works on a copy (receiver untouched); note the
    result of `copy.expect("=")` is discarded. -/
def getXmlAttr (p : PatternSeeker) (prop : List Char) :
    PatternSeeker × PatternSeeker :=
  let r1 := p.seekTo prop MoveMode.move_after
  if r1.1 = false then (sentinel, p)
  else
    let c2 := r1.2.skipWhiteSpaces
    let c3 := (c2.expect ['=']).2
    let c4 := c3.skipWhiteSpaces
    ((c4.extractBetween [quoteChar] [quoteChar] MoveMode.none).1, p)

end PatternSeeker

/-- `pat` occurs in `l` at index `i` (the whole pattern fits). -/
def occursAt (pat l : List Char) (i : Nat) : Prop :=
  pat.isPrefixOf (l.drop i) = true

instance (pat l : List Char) (i : Nat) : Decidable (occursAt pat l i) := by
  unfold occursAt; infer_instance

/-- `i` is the index of the first occurrence of `pat` in `l`. -/
def firstOccAt (pat l : List Char) (i : Nat) : Prop :=
  occursAt pat l i ∧ ∀ j, j < i → ¬ occursAt pat l j

instance (pat l : List Char) (i : Nat) : Decidable (firstOccAt pat l i) := by
  unfold firstOccAt; infer_instance

/-- Scanning the characters `l` that follow an opening bracket `s` with the
    depth counter starting at 1, the depth first returns to zero exactly
    after `n` characters: counting occurrences, the closing brackets in
    `l.take n` outnumber the opening ones by exactly one, and in every
    proper prefix by less than one. -/
def depthClosesAt (s e : Char) (l : List Char) (n : Nat) : Prop :=
  1 ≤ n ∧ n ≤ l.length ∧ (l.take n).count e = 1 + (l.take n).count s ∧
    ∀ m, m < n → (l.take m).count e < 1 + (l.take m).count s

instance (s e : Char) (l : List Char) (n : Nat) :
    Decidable (depthClosesAt s e l n) := by
  unfold depthClosesAt; infer_instance

/-- The buffer of the spec example for balanced extraction (a two-level
    JSON object with keys a and b). -/
def bracesInput : List Char :=
  ['{', '"', 'a', '"', ':', ' ', '{', '"', 'b', '"', ':', ' ', '1', '}', '}']

/-- The buffer of the spec example for delimiter extraction:
    `Hello, <name>World</name>!`. -/
def helloInput : List Char :=
  ['H', 'e', 'l', 'l', 'o', ',', ' ', '<', 'n', 'a', 'm', 'e', '>',
   'W', 'o', 'r', 'l', 'd', '<', '/', 'n', 'a', 'm', 'e', '>', '!']

/-- The buffer of the XML test of the repository:
    `<root><name>John</name></root>`. -/
def xmlInput : List Char :=
  ['<', 'r', 'o', 'o', 't', '>', '<', 'n', 'a', 'm', 'e', '>',
   'J', 'o', 'h', 'n', '<', '/', 'n', 'a', 'm', 'e', '>',
   '<', '/', 'r', 'o', 'o', 't', '>']

/-- The buffer of the JSON test of the repository (an object with keys
    name, age, array and obj). -/
def jsonInput : List Char :=
  ['{', '"', 'n', 'a', 'm', 'e', '"', ':', ' ', '"', 'J', 'o', 'h', 'n',
   '"', ',', ' ', '"', 'a', 'g', 'e', '"', ':', ' ', '3', '0', ',', ' ',
   '"', 'a', 'r', 'r', 'a', 'y', '"', ':', ' ', '[', '1', ',', '2', ',',
   '3', ']', ',', ' ', '"', 'o', 'b', 'j', '"', ':', ' ', '{', '"', 'n',
   'e', 's', 't', 'e', 'd', '"', ':', ' ', '"', 'v', 'a', 'l', 'u', 'e',
   '"', '}', '}']

/-- Helper: splitting a list at `n` and re-appending is the identity, with a
    trailing context. -/
theorem take_drop_append (l t : List Char) (n : Nat) :
    l.take n ++ (l.drop n ++ t) = l ++ t := by
  rw [← List.append_assoc, List.take_append_drop]

/-- Helper: splitting a list by `takeWhile`/`dropWhile` and re-appending is
    the identity, with a trailing context. -/
theorem takeWhile_dropWhile_append (q : Char → Bool) (l t : List Char) :
    l.takeWhile q ++ (l.dropWhile q ++ t) = l ++ t := by
  rw [← List.append_assoc, List.takeWhile_append_dropWhile]

/-- A prefix is never longer than the whole. -/
theorem isPrefixOf_length_le {l₁ l₂ : List Char} (h : l₁.isPrefixOf l₂ = true) :
    l₁.length ≤ l₂.length := by
  induction l₁ generalizing l₂ with
  | nil => simp
  | cons a as ih =>
    cases l₂ with
    | nil => simp [List.isPrefixOf] at h
    | cons b bs =>
      simp only [List.isPrefixOf, Bool.and_eq_true, beq_iff_eq] at h
      simpa using ih h.2

/-- The sign of the `strtoull` subject sequence lies within it. -/
theorem signLenOf_le (s : List Char) : signLenOf s ≤ s.length := by
  cases s with
  | nil => exact Nat.le_refl 0
  | cons c t =>
    have h1 : signLenOf (c :: t) ≤ 1 := by
      simp only [signLenOf]
      split
      · exact Nat.le_refl 1
      · exact Nat.zero_le 1
    exact le_trans h1 (Nat.succ_le_succ (Nat.zero_le _))

/-- Boolean prefix test, characterized by list splitting. -/
theorem isPrefixOf_iff_exists {l₁ l₂ : List Char} :
    l₁.isPrefixOf l₂ = true ↔ ∃ r, l₂ = l₁ ++ r := by
  induction l₁ generalizing l₂ with
  | nil => simp [List.isPrefixOf]
  | cons a as ih =>
    cases l₂ with
    | nil => simp [List.isPrefixOf]
    | cons b bs =>
      simp only [List.isPrefixOf, Bool.and_eq_true, beq_iff_eq, ih,
        List.cons_append, List.cons.injEq]
      constructor
      · rintro ⟨hab, r, hr⟩
        exact ⟨r, hab.symm, hr⟩
      · rintro ⟨r, hba, hr⟩
        exact ⟨hba.symm, r, hr⟩

/-- A list is a prefix of itself extended to the right. -/
theorem isPrefixOf_append_self (l t : List Char) :
    l.isPrefixOf (l ++ t) = true :=
  isPrefixOf_iff_exists.mpr ⟨t, rfl⟩

/-- `find` reports position 0 when the pattern heads the string. -/
theorem findSub_of_isPrefixOf {hay pat : List Char}
    (h : pat.isPrefixOf hay = true) : findSub hay pat = some 0 := by
  cases hay with
  | nil => rw [findSub, if_pos h]
  | cons c rest => rw [findSub, if_pos h]

/-- First occurrence of a single character that is absent from `v`. -/
theorem findSub_single_after (a : Char) (v rest : List Char)
    (hv : v.contains a = false) :
    findSub (v ++ a :: rest) [a] = some v.length := by
  induction v with
  | nil => exact findSub_of_isPrefixOf (by simp [List.isPrefixOf])
  | cons c cs ih =>
    have hca : (a == c) = false ∧ cs.contains a = false := by
      simpa [List.contains_cons, Bool.or_eq_false_iff] using hv
    rw [List.cons_append, findSub, if_neg (by simp [List.isPrefixOf, hca.1]),
      ih hca.2]
    rfl

/-- `dropWhile` jumps over a run of satisfying characters and stops at the
    first failing one. -/
theorem dropWhile_append_all {q : Char → Bool} {ws : List Char}
    (h : ∀ c ∈ ws, q c = true) (c : Char) (hc : q c = false)
    (t : List Char) : (ws ++ c :: t).dropWhile q = c :: t := by
  induction ws with
  | nil => simp [List.dropWhile_cons, hc]
  | cons a as ih =>
    have ha := h a (List.mem_cons_self a as)
    simp [List.dropWhile_cons, ha,
      ih (fun x hx => h x (List.mem_cons_of_mem a hx))]

/-- `takeWhile` keeps exactly a run of satisfying characters when the next
    one fails. -/
theorem takeWhile_append_all {q : Char → Bool} {ws : List Char}
    (h : ∀ c ∈ ws, q c = true) (c : Char) (hc : q c = false)
    (t : List Char) : (ws ++ c :: t).takeWhile q = ws := by
  induction ws with
  | nil => simp [List.takeWhile_cons, hc]
  | cons a as ih =>
    have ha := h a (List.mem_cons_self a as)
    simp [List.takeWhile_cons, ha,
      ih (fun x hx => h x (List.mem_cons_of_mem a hx))]

/-- An occurrence in the empty list forces an empty pattern. -/
theorem occursAt_nil {pat : List Char} {i : Nat} (h : occursAt pat [] i) :
    pat = [] := by
  unfold occursAt at h
  cases pat with
  | nil => rfl
  | cons a l => simp [List.isPrefixOf] at h

/-- Occurrences shift across a leading character. -/
theorem occursAt_cons_succ {pat : List Char} {c : Char} {rest : List Char}
    {i : Nat} : occursAt pat (c :: rest) (i + 1) ↔ occursAt pat rest i := by
  unfold occursAt
  simp

/-- Occurrence at the start is the prefix test. -/
theorem occursAt_zero {pat l : List Char} :
    occursAt pat l 0 ↔ pat.isPrefixOf l = true := by
  unfold occursAt
  simp

/-- When `find` reports no occurrence there is none. -/
theorem findSub_none {hay pat : List Char} (h : findSub hay pat = none) :
    ∀ i, ¬ occursAt pat hay i := by
  induction hay with
  | nil =>
    intro i hc
    have hp := occursAt_nil hc
    subst hp
    simp [findSub, List.isPrefixOf] at h
  | cons c rest ih =>
    intro i hc
    rw [findSub] at h
    by_cases hp : pat.isPrefixOf (c :: rest) = true
    · rw [if_pos hp] at h
      exact Option.noConfusion h
    · rw [if_neg hp] at h
      have h' : findSub rest pat = none := Option.map_eq_none'.mp h
      cases i with
      | zero => exact hp (occursAt_zero.mp hc)
      | succ j => exact ih h' j (occursAt_cons_succ.mp hc)

/-- `find` returns the first occurrence. -/
theorem findSub_some {hay pat : List Char} :
    ∀ {i : Nat}, findSub hay pat = some i →
      occursAt pat hay i ∧ ∀ j, j < i → ¬ occursAt pat hay j := by
  induction hay with
  | nil =>
    intro i h
    rw [findSub] at h
    by_cases hp : pat.isPrefixOf ([] : List Char) = true
    · rw [if_pos hp] at h
      obtain rfl : 0 = i := Option.some.inj h
      exact ⟨occursAt_zero.mpr hp, fun j hj => absurd hj (Nat.not_lt_zero j)⟩
    · rw [if_neg hp] at h
      exact Option.noConfusion h
  | cons c rest ih =>
    intro i h
    rw [findSub] at h
    by_cases hp : pat.isPrefixOf (c :: rest) = true
    · rw [if_pos hp] at h
      obtain rfl : 0 = i := Option.some.inj h
      exact ⟨occursAt_zero.mpr hp, fun j hj => absurd hj (Nat.not_lt_zero j)⟩
    · rw [if_neg hp] at h
      obtain ⟨i', hi', hii⟩ := Option.map_eq_some'.mp h
      subst hii
      have hrec := ih hi'
      refine ⟨occursAt_cons_succ.mpr hrec.1, ?_⟩
      intro j hj
      cases j with
      | zero => exact fun hc => hp (occursAt_zero.mp hc)
      | succ j' =>
        intro hc
        exact hrec.2 j' (Nat.lt_of_succ_lt_succ hj) (occursAt_cons_succ.mp hc)

/-- A first occurrence is exactly what `find` returns. -/
theorem firstOccAt_findSub {hay pat : List Char} {i : Nat}
    (h : firstOccAt pat hay i) : findSub hay pat = some i := by
  cases hf : findSub hay pat with
  | none => exact absurd h.1 (findSub_none hf i)
  | some j =>
    have hj := findSub_some hf
    rcases Nat.lt_trichotomy i j with hlt | heq | hgt
    · exact absurd h.1 (hj.2 i hlt)
    · rw [heq]
    · exact absurd hj.1 (h.2 j hgt)

/-- Occurrences in a dropped suffix are shifted occurrences. -/
theorem occursAt_drop {pat l : List Char} {pos k : Nat} :
    occursAt pat (l.drop pos) k ↔ occursAt pat l (pos + k) := by
  unfold occursAt
  rw [List.drop_drop]

/-- `find(pat, pos)` returns the first occurrence at or past `pos`. -/
theorem findFrom_some {hay pat : List Char} {pos j : Nat}
    (h : findFrom hay pat pos = some j) :
    pos ≤ j ∧ occursAt pat hay j ∧
      ∀ j', pos ≤ j' → j' < j → ¬ occursAt pat hay j' := by
  unfold findFrom at h
  by_cases hp : pos ≤ hay.length
  · simp only [hp, if_true, Option.map_eq_some'] at h
    obtain ⟨k, hk, rfl⟩ := h
    have hs := findSub_some hk
    refine ⟨Nat.le_add_left pos k, ?_, ?_⟩
    · have := occursAt_drop.mp hs.1
      rwa [Nat.add_comm] at this
    · intro j' hj1 hj2 hc
      obtain ⟨d, rfl⟩ := Nat.exists_eq_add_of_le hj1
      have : occursAt pat (hay.drop pos) d := occursAt_drop.mpr hc
      exact hs.2 d (by omega) this
  · simp [hp] at h

/-- `find(pat, pos)` returning `npos` means no occurrence at or past `pos`
    (given `pos` is within the string, which all call sites guarantee). -/
theorem findFrom_none {hay pat : List Char} {pos : Nat}
    (hpos : pos ≤ hay.length) (h : findFrom hay pat pos = none) :
    ∀ j, pos ≤ j → ¬ occursAt pat hay j := by
  unfold findFrom at h
  simp only [hpos, if_true, Option.map_eq_none'] at h
  intro j hj hc
  obtain ⟨d, rfl⟩ := Nat.exists_eq_add_of_le hj
  exact findSub_none h d (occursAt_drop.mpr hc)

/-- The first occurrence of a pattern lies entirely inside the string. -/
theorem firstOcc_add_length_le {f l : List Char} {i : Nat}
    (h : firstOccAt f l i) : i + f.length ≤ l.length := by
  cases f with
  | nil =>
    have h0 : occursAt ([] : List Char) l 0 := by
      simp [occursAt, List.isPrefixOf]
    cases Nat.eq_zero_or_pos i with
    | inl h1 => simp [h1]
    | inr h1 => exact absurd h0 (h.2 0 h1)
  | cons a as =>
    have hp := h.1
    unfold occursAt at hp
    have hlen := isPrefixOf_length_le hp
    rw [List.length_drop, List.length_cons] at hlen
    rw [List.length_cons]
    omega

/-- `find(pat, pos)` computed from the first occurrence at or past `pos`. -/
theorem findFrom_of_firstOcc_from {l t : List Char} {pos j : Nat}
    (hpos : pos ≤ l.length) (hj : pos ≤ j) (hocc : occursAt t l j)
    (hmin : ∀ j', pos ≤ j' → j' < j → ¬ occursAt t l j') :
    findFrom l t pos = some j := by
  unfold findFrom
  rw [if_pos hpos]
  have h1 : firstOccAt t (l.drop pos) (j - pos) := by
    constructor
    · apply occursAt_drop.mpr
      rwa [Nat.add_sub_cancel' hj]
    · intro k hk hc
      exact hmin (pos + k) (Nat.le_add_right pos k) (by omega)
        (occursAt_drop.mp hc)
  rw [firstOccAt_findSub h1]
  simp [Nat.sub_add_cancel hj]

/-- Soundness of the bracket-scanning loop: a successful scan stops right
    after the first position where the closing brackets consumed outnumber
    the opening ones by the initial depth. -/
theorem scanBal_sound (s e : Char) (hne : s ≠ e) (cs : List Char) :
    ∀ (d k : Nat), 0 < d → PatternSeeker.scanBal s e cs d = some k →
      1 ≤ k ∧ k ≤ cs.length ∧
      (cs.take k).count e = d + (cs.take k).count s ∧
      ∀ m, m < k → (cs.take m).count e < d + (cs.take m).count s := by
  induction cs with
  | nil =>
    intro d k hd h
    rw [PatternSeeker.scanBal] at h
    exact Option.noConfusion h
  | cons c rest ih =>
    intro d k hd h
    rw [PatternSeeker.scanBal] at h
    by_cases hcs : c = s
    · subst hcs
      rw [if_pos rfl] at h
      obtain ⟨k', hk', hkk⟩ := Option.map_eq_some'.mp h
      subst hkk
      obtain ⟨h1, h2, h3, h4⟩ := ih (d + 1) k' (by omega) hk'
      refine ⟨by omega, by rw [List.length_cons]; omega, ?_, ?_⟩
      · rw [List.take_succ_cons, List.count_cons_of_ne (Ne.symm hne),
          List.count_cons_self]
        omega
      · intro m hm
        cases m with
        | zero => simpa using hd
        | succ m' =>
          rw [List.take_succ_cons, List.count_cons_of_ne (Ne.symm hne),
            List.count_cons_self]
          have := h4 m' (by omega)
          omega
    · by_cases hce : c = e
      · subst hce
        rw [if_neg hcs, if_pos rfl] at h
        by_cases hd1 : d = 1
        · rw [if_pos hd1] at h
          obtain hk : 1 = k := Option.some.inj h
          subst hk
          subst hd1
          refine ⟨Nat.le_refl 1, by rw [List.length_cons]; omega, ?_, ?_⟩
          · rw [List.take_succ_cons, List.take_zero, List.count_cons_self,
              List.count_cons_of_ne hne]
            simp
          · intro m hm
            have : m = 0 := by omega
            subst this
            simp
        · rw [if_neg hd1] at h
          obtain ⟨k', hk', hkk⟩ := Option.map_eq_some'.mp h
          subst hkk
          obtain ⟨h1, h2, h3, h4⟩ := ih (d - 1) k' (by omega) hk'
          refine ⟨by omega, by rw [List.length_cons]; omega, ?_, ?_⟩
          · rw [List.take_succ_cons, List.count_cons_self,
              List.count_cons_of_ne hne]
            omega
          · intro m hm
            cases m with
            | zero => simpa using hd
            | succ m' =>
              rw [List.take_succ_cons, List.count_cons_self,
                List.count_cons_of_ne hne]
              have := h4 m' (by omega)
              omega
      · rw [if_neg hcs, if_neg hce] at h
        obtain ⟨k', hk', hkk⟩ := Option.map_eq_some'.mp h
        subst hkk
        obtain ⟨h1, h2, h3, h4⟩ := ih d k' hd hk'
        refine ⟨by omega, by rw [List.length_cons]; omega, ?_, ?_⟩
        · rw [List.take_succ_cons, List.count_cons_of_ne (Ne.symm hce),
            List.count_cons_of_ne (Ne.symm hcs)]
          exact h3
        · intro m hm
          cases m with
          | zero => simpa using hd
          | succ m' =>
            rw [List.take_succ_cons, List.count_cons_of_ne (Ne.symm hce),
              List.count_cons_of_ne (Ne.symm hcs)]
            exact h4 m' (by omega)

/-- Completeness of the bracket-scanning loop: when the scan runs out of
    characters, no consumed block ever brings the depth back to zero. -/
theorem scanBal_complete (s e : Char) (hne : s ≠ e) (cs : List Char) :
    ∀ (d : Nat), 0 < d → PatternSeeker.scanBal s e cs d = none →
      ∀ k, k ≤ cs.length →
        (cs.take k).count e < d + (cs.take k).count s := by
  induction cs with
  | nil =>
    intro d hd _ k hk
    have hk0 : k = 0 := Nat.le_zero.mp hk
    subst hk0
    simpa using hd
  | cons c rest ih =>
    intro d hd h k hk
    rw [PatternSeeker.scanBal] at h
    by_cases hcs : c = s
    · subst hcs
      rw [if_pos rfl] at h
      have h' := Option.map_eq_none'.mp h
      cases k with
      | zero => simpa using hd
      | succ k' =>
        have hk' : k' ≤ rest.length := by
          rw [List.length_cons] at hk; omega
        have hrec := ih (d + 1) (by omega) h' k' hk'
        rw [List.take_succ_cons, List.count_cons_of_ne (Ne.symm hne),
          List.count_cons_self]
        omega
    · by_cases hce : c = e
      · subst hce
        rw [if_neg hcs, if_pos rfl] at h
        by_cases hd1 : d = 1
        · rw [if_pos hd1] at h
          exact Option.noConfusion h
        · rw [if_neg hd1] at h
          have h' := Option.map_eq_none'.mp h
          cases k with
          | zero => simpa using hd
          | succ k' =>
            have hk' : k' ≤ rest.length := by
              rw [List.length_cons] at hk; omega
            have hrec := ih (d - 1) (by omega) h' k' hk'
            rw [List.take_succ_cons, List.count_cons_self,
              List.count_cons_of_ne hne]
            omega
      · rw [if_neg hcs, if_neg hce] at h
        have h' := Option.map_eq_none'.mp h
        cases k with
        | zero => simpa using hd
        | succ k' =>
          have hk' : k' ≤ rest.length := by
            rw [List.length_cons] at hk; omega
          have hrec := ih d hd h' k' hk'
          rw [List.take_succ_cons, List.count_cons_of_ne (Ne.symm hce),
            List.count_cons_of_ne (Ne.symm hcs)]
          exact hrec

/-- The depth-zero closing position after an opening bracket is unique. -/
theorem depthClosesAt_unique {s e : Char} {l : List Char} {n k : Nat}
    (h1 : depthClosesAt s e l n) (h2 : depthClosesAt s e l k) : n = k := by
  rcases Nat.lt_trichotomy n k with h | h | h
  · have hlt := h2.2.2.2 n h
    have heq := h1.2.2.1
    omega
  · exact h
  · have hlt := h1.2.2.2 k h
    have heq := h2.2.2.1
    omega

namespace PatternSeeker

/-- `remove_prefix` does not change the underlying buffer. -/
theorem buffer_advance (p : PatternSeeker) (n : Nat) :
    (p.advance n).buffer = p.buffer := by
  simp [buffer, advance, List.append_assoc, take_drop_append]

/-- Slicing through the private constructor keeps the underlying buffer. -/
theorem buffer_subPS (p : PatternSeeker) (pos cnt : Nat) :
    (p.subPS pos cnt).buffer = p.buffer := by
  simp only [buffer, subPS, List.append_assoc]
  rw [take_drop_append, take_drop_append]

/-- `skipWhiteSpaces` keeps the underlying buffer. -/
theorem buffer_skipWhiteSpaces (p : PatternSeeker) :
    p.skipWhiteSpaces.buffer = p.buffer := by
  simp [buffer, skipWhiteSpaces, List.append_assoc, takeWhile_dropWhile_append]

/-- `expect` keeps the underlying buffer. -/
theorem buffer_expect (p : PatternSeeker) (e : List Char) :
    (p.expect e).2.buffer = p.buffer := by
  unfold expect
  by_cases h : e.isPrefixOf p.view = true <;> simp [h, buffer_advance]

/-- `to` keeps the underlying buffer. -/
theorem buffer_seekTo (p : PatternSeeker) (e : List Char) (mode : MoveMode) :
    (p.seekTo e mode).2.buffer = p.buffer := by
  unfold seekTo
  cases findSub p.view e with
  | none => rfl
  | some pos => cases mode <;> simp [buffer_advance]

/-- `remove_prefix(0)` is the identity. -/
theorem advance_zero (p : PatternSeeker) : p.advance 0 = p := by
  simp [advance]

/-- `extract(from, to, mode)` either fails or keeps the origin buffer. -/
theorem extractBetween_origin (p : PatternSeeker) (f t : List Char)
    (mode : MoveMode) :
    (p.extractBetween f t mode).1 = sentinel ∨
      (p.extractBetween f t mode).1.buffer = p.buffer := by
  simp only [extractBetween]
  split
  · exact Or.inl rfl
  · split
    · exact Or.inl rfl
    · split <;> exact Or.inr (buffer_subPS _ _ _)

/-- `extract(to, mode)` either fails or keeps the origin buffer. -/
theorem extractTo_origin (p : PatternSeeker) (t : List Char)
    (mode : MoveMode) :
    (p.extractTo t mode).1 = sentinel ∨
      (p.extractTo t mode).1.buffer = p.buffer := by
  simp only [extractTo]
  split
  · exact Or.inl rfl
  · split <;> exact Or.inr (buffer_subPS _ _ _)

/-- `extractUntilOneOf` either fails or keeps the origin buffer. -/
theorem extractUntilOneOf_origin (p : PatternSeeker) (cs : List Char)
    (mode : MoveMode) :
    (p.extractUntilOneOf cs mode).1 = sentinel ∨
      (p.extractUntilOneOf cs mode).1.buffer = p.buffer := by
  simp only [extractUntilOneOf]
  split
  · exact Or.inl rfl
  · exact Or.inr (buffer_subPS _ _ _)

/-- `extract(start, end, mode)` either fails or keeps the origin buffer. -/
theorem extractBalanced_origin (p : PatternSeeker) (s e : Char)
    (mode : MoveMode) :
    (p.extractBalanced s e mode).1 = sentinel ∨
      (p.extractBalanced s e mode).1.buffer = p.buffer := by
  simp only [extractBalanced]
  split
  · exact Or.inl rfl
  · split
    · exact Or.inl rfl
    · split <;> exact Or.inr (buffer_subPS _ _ _)

/-- `getXmlTag` either fails or keeps the origin buffer. -/
theorem getXmlTag_origin (p : PatternSeeker) (prop : List Char)
    (mode : MoveMode) :
    (p.getXmlTag prop mode).1 = sentinel ∨
      (p.getXmlTag prop mode).1.buffer = p.buffer := by
  simp only [getXmlTag]
  split
  · exact Or.inl rfl
  · split
    · exact Or.inl rfl
    · split <;> exact Or.inr (buffer_subPS _ _ _)

/-- Transport of the fail-or-same-buffer property along an inner state whose
    buffer agrees with the receiver's. -/
theorem origin_chain {q p : PatternSeeker} (hq : q.buffer = p.buffer)
    (r : PatternSeeker) (h : r = sentinel ∨ r.buffer = q.buffer) :
    r = sentinel ∨ r.buffer = p.buffer := by
  rcases h with h | h
  · exact Or.inl h
  · exact Or.inr (h.trans hq)

/-- `getJsonProp` either fails or keeps the origin buffer. -/
theorem getJsonProp_origin (p : PatternSeeker) (prop : List Char) :
    (p.getJsonProp prop).1 = sentinel ∨
      (p.getJsonProp prop).1.buffer = p.buffer := by
  simp only [getJsonProp]
  split
  · exact Or.inl rfl
  · split
    · exact Or.inl rfl
    · split
      · refine origin_chain ?_ _ (extractTo_origin _ _ _)
        simp [buffer_skipWhiteSpaces, buffer_expect, buffer_seekTo]
      · split
        · refine origin_chain ?_ _ (extractBalanced_origin _ _ _ _)
          simp [buffer_skipWhiteSpaces, buffer_expect, buffer_seekTo]
        · split
          · refine origin_chain ?_ _ (extractBalanced_origin _ _ _ _)
            simp [buffer_skipWhiteSpaces, buffer_expect, buffer_seekTo]
          · refine origin_chain ?_ _ (extractUntilOneOf_origin _ _ _)
            simp [buffer_skipWhiteSpaces, buffer_expect, buffer_seekTo]

/-- `getXmlAttr` either fails or keeps the origin buffer. -/
theorem getXmlAttr_origin (p : PatternSeeker) (prop : List Char) :
    (p.getXmlAttr prop).1 = sentinel ∨
      (p.getXmlAttr prop).1.buffer = p.buffer := by
  simp only [getXmlAttr]
  split
  · exact Or.inl rfl
  · refine origin_chain ?_ _ (extractBetween_origin _ _ _ _)
    simp [buffer_skipWhiteSpaces, buffer_expect, buffer_seekTo]

/-- The result of `getXmlTagBody` always carries offset 0: it went through
    the public one-argument constructor. -/
theorem getXmlTagBody_pre_nil (p : PatternSeeker) (prop : List Char)
    (mode : MoveMode) : (p.getXmlTagBody prop mode).1.pre = [] := by
  simp only [getXmlTagBody]
  split
  · rfl
  · split
    · rfl
    · rfl

/-- The window of any cursor sits in its buffer at distance `getOffset`
    from the origin. -/
theorem view_at_offset (q : PatternSeeker) :
    q.view.isPrefixOf (q.buffer.drop q.getOffset) = true := by
  unfold buffer getOffset
  rw [List.append_assoc, List.drop_left]
  exact isPrefixOf_append_self _ _

end PatternSeeker

/-- C7: for every cursor `c` and literal `s`, `c.expect(s)` returns true and
    advances the view by exactly `|s|` characters (the offset grows by `s`,
    the view loses its first `|s|` characters) precisely when
    `c.startsWith(s)` held before the call; otherwise it returns false and
    leaves the state unchanged. -/
theorem C7_expect_iff_startsWith :
    ∀ (p : PatternSeeker) (s : List Char),
      (p.startsWith s = true ∧
        p.expect s = (true, ⟨p.pre ++ s, p.view.drop s.length, p.tail⟩)) ∨
      (p.startsWith s = false ∧ p.expect s = (false, p)) := by
  intro p s
  unfold PatternSeeker.startsWith PatternSeeker.expect PatternSeeker.advance
  cases hx : s.isPrefixOf p.view with
  | false => right; simp [hx]
  | true =>
    left
    obtain ⟨r, hr⟩ := isPrefixOf_iff_exists.mp hx
    refine ⟨rfl, ?_⟩
    simp only [if_true]
    rw [hr, List.take_left]

/-- C9: `getJsonProp` and `getXmlAttr` operate on a copy and never mutate
    the receiver, whether they succeed or fail: the receiver state they
    return is the input state.  (`startsWith` is `const` in the source and
    is correspondingly embedded as a pure function of the state.) -/
theorem C9_no_mutation :
    ∀ (p : PatternSeeker) (s : List Char),
      (p.getJsonProp s).2 = p ∧ (p.getXmlAttr s).2 = p := by
  intro p s
  constructor
  · simp only [PatternSeeker.getJsonProp]
    split
    · rfl
    · split
      · rfl
      · split
        · rfl
        · split
          · rfl
          · split <;> rfl
  · simp only [PatternSeeker.getXmlAttr]
    split <;> rfl

/-- C1 counterexample: `extract(5, move_after)` on a cursor whose view has
    only two characters calls `remove_prefix(5)` with `5 > size()`, which is
    undefined behavior, not a safe truncation that leaves the view empty;
    the embedding marks that call `none`. -/
theorem C1_counterexample :
    PatternSeeker.extractFixed ⟨[], ['a', 'b'], []⟩ 5 MoveMode.move_after
      = none := by decide

/-- C1 (amended): `extract(n, mode)` returns a derived cursor holding the
    first `min(n, c.size())` characters of the view and signals no failure,
    and the receiver is repositioned past those characters under
    `move_after` and untouched otherwise — provided that when the mode is
    `move_after`, `n` does not exceed `c.size()`; with `n > c.size()` and
    `move_after` the code calls `remove_prefix` past the end of the view,
    which is undefined behavior rather than a safe emptying of the view. -/
theorem C1_extractFixed_amended :
    ∀ (p : PatternSeeker) (n : Nat) (mode : MoveMode),
      (mode = MoveMode.move_after → n ≤ p.size) →
      ∃ r p', p.extractFixed n mode = some (r, p') ∧
        r.view = p.view.take n ∧ r.view.length = min n p.size ∧
        r.getOffset = p.getOffset ∧
        (mode = MoveMode.move_after →
          p'.view = p.view.drop n ∧ p'.getOffset = p.getOffset + n) ∧
        (mode ≠ MoveMode.move_after → p' = p) := by
  intro p n mode h
  cases mode with
  | move_after =>
    have hn : n ≤ p.view.length := h rfl
    refine ⟨p.subPS 0 n, p.advance n, ?_, ?_, ?_, ?_, ?_, ?_⟩
    · simp [PatternSeeker.extractFixed, hn]
    · simp [PatternSeeker.subPS]
    · simp [PatternSeeker.subPS, PatternSeeker.size]
    · simp [PatternSeeker.subPS, PatternSeeker.getOffset]
    · intro _
      refine ⟨by simp [PatternSeeker.advance], ?_⟩
      simp [PatternSeeker.advance, PatternSeeker.getOffset]
      omega
    · intro hne; exact absurd rfl hne
  | none =>
    refine ⟨p.subPS 0 n, p, ?_, ?_, ?_, ?_, ?_, ?_⟩
    · simp [PatternSeeker.extractFixed]
    · simp [PatternSeeker.subPS]
    · simp [PatternSeeker.subPS, PatternSeeker.size]
    · simp [PatternSeeker.subPS, PatternSeeker.getOffset]
    · intro hc; exact absurd hc (by decide)
    · intro _; rfl
  | move_before =>
    refine ⟨p.subPS 0 n, p, ?_, ?_, ?_, ?_, ?_, ?_⟩
    · simp [PatternSeeker.extractFixed]
    · simp [PatternSeeker.subPS]
    · simp [PatternSeeker.subPS, PatternSeeker.size]
    · simp [PatternSeeker.subPS, PatternSeeker.getOffset]
    · intro hc; exact absurd hc (by decide)
    · intro _; rfl

/-- C1 witness: the amended theorem applied to the three-character view
    `abc` with `n = 2` and `move_after`. -/
theorem C1_extractFixed_witness :
    ∃ r p', PatternSeeker.extractFixed ⟨[], ['a', 'b', 'c'], []⟩ 2
        MoveMode.move_after = some (r, p') ∧ r.view = ['a', 'b'] := by
  obtain ⟨r, p', h1, h2, -⟩ :=
    C1_extractFixed_amended ⟨[], ['a', 'b', 'c'], []⟩ 2 MoveMode.move_after
      (fun _ => by decide)
  exact ⟨r, p', h1, h2.trans (by decide)⟩

/-- C2 counterexample: on `<root><name>John</name></root>`,
    getXmlTagBody("name") succeeds with view `John`, yet its offset is 0
    and the original buffer does not carry `John` at offset 0 — `John`
    lies at offset 12.  The result went through the public one-argument
    constructor, so it does not share the receiver's origin. -/
theorem C2_counterexample :
    ((PatternSeeker.mkRoot xmlInput []).getXmlTagBody
        ['n', 'a', 'm', 'e'] MoveMode.none).1.view = ['J', 'o', 'h', 'n'] ∧
    ((PatternSeeker.mkRoot xmlInput []).getXmlTagBody
        ['n', 'a', 'm', 'e'] MoveMode.none).1.getOffset = 0 ∧
    findSub xmlInput ['J', 'o', 'h', 'n'] = some 12 ∧
    ['J', 'o', 'h', 'n'].isPrefixOf (xmlInput.drop 0) = false := by decide

/-- C2 (amended): every successful cursor returned by the extract overloads,
    getJsonProp, getXmlTag or getXmlAttr shares the receiver's origin — its
    whole underlying buffer is the receiver's, so getOffset() is the
    distance of its view from the original buffer start, where its view
    indeed occurs (last conjunct).  getXmlTagBody is the exception: its
    result passes through the public one-argument constructor, is re-rooted
    at the body start, and always reports offset 0. -/
theorem C2_derived_cursor_origin_amended :
    (∀ (p : PatternSeeker) (f t : List Char) (mode : MoveMode),
      (p.extractBetween f t mode).1 = PatternSeeker.sentinel ∨
        (p.extractBetween f t mode).1.buffer = p.buffer) ∧
    (∀ (p : PatternSeeker) (t : List Char) (mode : MoveMode),
      (p.extractTo t mode).1 = PatternSeeker.sentinel ∨
        (p.extractTo t mode).1.buffer = p.buffer) ∧
    (∀ (p : PatternSeeker) (cs : List Char) (mode : MoveMode),
      (p.extractUntilOneOf cs mode).1 = PatternSeeker.sentinel ∨
        (p.extractUntilOneOf cs mode).1.buffer = p.buffer) ∧
    (∀ (p : PatternSeeker) (s e : Char) (mode : MoveMode),
      (p.extractBalanced s e mode).1 = PatternSeeker.sentinel ∨
        (p.extractBalanced s e mode).1.buffer = p.buffer) ∧
    (∀ (p : PatternSeeker) (n : Nat) (mode : MoveMode),
      (p.extractFixed n mode).elim True (fun x => x.1.buffer = p.buffer)) ∧
    (∀ (p : PatternSeeker) (prop : List Char),
      (p.getJsonProp prop).1 = PatternSeeker.sentinel ∨
        (p.getJsonProp prop).1.buffer = p.buffer) ∧
    (∀ (p : PatternSeeker) (prop : List Char) (mode : MoveMode),
      (p.getXmlTag prop mode).1 = PatternSeeker.sentinel ∨
        (p.getXmlTag prop mode).1.buffer = p.buffer) ∧
    (∀ (p : PatternSeeker) (prop : List Char),
      (p.getXmlAttr prop).1 = PatternSeeker.sentinel ∨
        (p.getXmlAttr prop).1.buffer = p.buffer) ∧
    (∀ (p : PatternSeeker) (prop : List Char) (mode : MoveMode),
      (p.getXmlTagBody prop mode).1.getOffset = 0) ∧
    (∀ q : PatternSeeker,
      q.view.isPrefixOf (q.buffer.drop q.getOffset) = true) := by
  refine ⟨PatternSeeker.extractBetween_origin, PatternSeeker.extractTo_origin,
    PatternSeeker.extractUntilOneOf_origin, PatternSeeker.extractBalanced_origin,
    ?_, PatternSeeker.getJsonProp_origin, PatternSeeker.getXmlTag_origin,
    PatternSeeker.getXmlAttr_origin, ?_, PatternSeeker.view_at_offset⟩
  · intro p n mode
    unfold PatternSeeker.extractFixed
    split
    · split
      · exact PatternSeeker.buffer_subPS _ _ _
      · trivial
    · exact PatternSeeker.buffer_subPS _ _ _
  · intro p prop mode
    show (p.getXmlTagBody prop mode).1.pre.length = 0
    rw [PatternSeeker.getXmlTagBody_pre_nil]
    rfl

/-- C3 counterexample: on the view `-5`, which does not begin with a decimal
    digit, takeUInt64() still returns a value — strtoull consumes the sign
    and negates the magnitude modulo 2^64, yielding 2^64 - 5 — and the view
    is advanced past both characters. -/
theorem C3_counterexample :
    (PatternSeeker.mkRoot ['-', '5'] []).takeUInt64 =
      some (some 18446744073709551611, ⟨['-', '5'], [], []⟩) ∧
    isdigit '-' = false := by decide

/-- C3 (amended): provided the view extends to the end of the NUL-bounded
    buffer (`tail = []`, true of any root cursor over a whole string — on a
    shorter window strtoull can read and consume past the window's end),
    takeUInt64() follows the strtoull grammar: with `ws` the leading
    whitespace run of the view, an optional single sign after it, and `ds`
    the digit run after that, it returns a value iff `ds` is nonempty and
    its magnitude fits in unsigned 64-bit; the value is that magnitude,
    negated modulo 2^64 when the sign was `-`; the view advances past
    whitespace, sign and digits whenever at least one digit was consumed
    (also on overflow), and stays unchanged when zero digits were
    consumed. -/
theorem C3_takeUInt64_amended :
    ∀ (p : PatternSeeker) (ws s1 ds : List Char),
      p.tail = [] →
      ws = p.view.takeWhile isspace →
      s1 = p.view.drop ws.length →
      ds = (s1.drop (signLenOf s1)).takeWhile isdigit →
      (ds = [] → p.takeUInt64 = some (none, p)) ∧
      (ds ≠ [] → 2 ^ 64 ≤ digitsVal ds →
        p.takeUInt64 =
          some (none, p.advance (ws.length + signLenOf s1 + ds.length))) ∧
      (ds ≠ [] → digitsVal ds < 2 ^ 64 →
        p.takeUInt64 =
          some (some (if isNegOf s1 then (2 ^ 64 - digitsVal ds) % 2 ^ 64
                      else digitsVal ds),
            p.advance (ws.length + signLenOf s1 + ds.length))) := by
  intro p ws s1 ds htail hws hs1 hds
  subst hws hs1 hds
  have e1 : (p.view.takeWhile isspace).length +
      (p.view.dropWhile isspace).length = p.view.length := by
    rw [← List.length_append, List.takeWhile_append_dropWhile]
  have e2 := signLenOf_le (p.view.drop (p.view.takeWhile isspace).length)
  have e3 : (((p.view.drop (p.view.takeWhile isspace).length).drop
        (signLenOf (p.view.drop
          (p.view.takeWhile isspace).length))).takeWhile isdigit).length +
      (((p.view.drop (p.view.takeWhile isspace).length).drop
        (signLenOf (p.view.drop
          (p.view.takeWhile isspace).length))).dropWhile isdigit).length =
      ((p.view.drop (p.view.takeWhile isspace).length).drop
        (signLenOf (p.view.drop
          (p.view.takeWhile isspace).length))).length := by
    rw [← List.length_append, List.takeWhile_append_dropWhile]
  have e4 : (p.view.drop (p.view.takeWhile isspace).length).length =
      p.view.length - (p.view.takeWhile isspace).length :=
    List.length_drop _ _
  have e5 : ((p.view.drop (p.view.takeWhile isspace).length).drop
        (signLenOf (p.view.drop (p.view.takeWhile isspace).length))).length =
      (p.view.drop (p.view.takeWhile isspace).length).length -
        signLenOf (p.view.drop (p.view.takeWhile isspace).length) :=
    List.length_drop _ _
  have hb : (p.view.takeWhile isspace).length +
      signLenOf (p.view.drop (p.view.takeWhile isspace).length) +
      (((p.view.drop (p.view.takeWhile isspace).length).drop
        (signLenOf (p.view.drop
          (p.view.takeWhile isspace).length))).takeWhile isdigit).length ≤
      p.view.length := by omega
  refine ⟨?_, ?_, ?_⟩
  · intro h0
    have hstr : strtoull10 (p.view ++ p.tail) = (0, 0, false) := by
      rw [htail, List.append_nil]
      simp only [strtoull10]
      rw [h0]
      simp
    simp [PatternSeeker.takeUInt64, hstr, PatternSeeker.advance_zero]
  · intro hne hov
    have hfalse : (((p.view.drop (p.view.takeWhile isspace).length).drop
        (signLenOf (p.view.drop
          (p.view.takeWhile isspace).length))).takeWhile isdigit).isEmpty
        = false := by
      cases hd : ((p.view.drop (p.view.takeWhile isspace).length).drop
          (signLenOf (p.view.drop
            (p.view.takeWhile isspace).length))).takeWhile isdigit with
      | nil => exact absurd hd hne
      | cons a t => rfl
    have hstr : strtoull10 (p.view ++ p.tail) =
        ((p.view.takeWhile isspace).length +
          signLenOf (p.view.drop (p.view.takeWhile isspace).length) +
          (((p.view.drop (p.view.takeWhile isspace).length).drop
            (signLenOf (p.view.drop
              (p.view.takeWhile isspace).length))).takeWhile isdigit).length,
          2 ^ 64 - 1, true) := by
      rw [htail, List.append_nil]
      simp only [strtoull10, hfalse, Bool.false_eq_true, if_false]
      rw [if_pos (by omega)]
    unfold PatternSeeker.takeUInt64
    rw [hstr]
    dsimp only
    rw [if_pos hb]
    simp
  · intro hne hlt
    have hfalse : (((p.view.drop (p.view.takeWhile isspace).length).drop
        (signLenOf (p.view.drop
          (p.view.takeWhile isspace).length))).takeWhile isdigit).isEmpty
        = false := by
      cases hd : ((p.view.drop (p.view.takeWhile isspace).length).drop
          (signLenOf (p.view.drop
            (p.view.takeWhile isspace).length))).takeWhile isdigit with
      | nil => exact absurd hd hne
      | cons a t => rfl
    have hpos : 0 < (((p.view.drop (p.view.takeWhile isspace).length).drop
        (signLenOf (p.view.drop
          (p.view.takeWhile isspace).length))).takeWhile isdigit).length :=
      List.length_pos.mpr hne
    have hstr : strtoull10 (p.view ++ p.tail) =
        ((p.view.takeWhile isspace).length +
          signLenOf (p.view.drop (p.view.takeWhile isspace).length) +
          (((p.view.drop (p.view.takeWhile isspace).length).drop
            (signLenOf (p.view.drop
              (p.view.takeWhile isspace).length))).takeWhile isdigit).length,
          if isNegOf (p.view.drop (p.view.takeWhile isspace).length) then
            (2 ^ 64 - digitsVal (((p.view.drop
              (p.view.takeWhile isspace).length).drop
              (signLenOf (p.view.drop
                (p.view.takeWhile isspace).length))).takeWhile isdigit))
              % 2 ^ 64
          else digitsVal (((p.view.drop
            (p.view.takeWhile isspace).length).drop
            (signLenOf (p.view.drop
              (p.view.takeWhile isspace).length))).takeWhile isdigit),
          false) := by
      rw [htail, List.append_nil]
      simp only [strtoull10, hfalse, Bool.false_eq_true, if_false]
      rw [if_neg (by omega)]
    have hc0 : ¬ ((p.view.takeWhile isspace).length +
        signLenOf (p.view.drop (p.view.takeWhile isspace).length) +
        (((p.view.drop (p.view.takeWhile isspace).length).drop
          (signLenOf (p.view.drop
            (p.view.takeWhile isspace).length))).takeWhile isdigit).length
        = 0) := by omega
    unfold PatternSeeker.takeUInt64
    rw [hstr]
    dsimp only
    rw [if_pos hb]
    simp only [Bool.false_or, decide_eq_true_eq]
    rw [if_neg hc0]

/-- C3 witness: the amended theorem applied to the root view `42x`. -/
theorem C3_takeUInt64_witness :
    (PatternSeeker.mkRoot ['4', '2', 'x'] []).takeUInt64 =
      some (some 42, ⟨['4', '2'], ['x'], []⟩) := by
  have h := (C3_takeUInt64_amended (PatternSeeker.mkRoot ['4', '2', 'x'] [])
      _ _ _ rfl rfl rfl rfl).2.2 (by decide) (by decide)
  rw [h]
  decide

/-- C10: getXmlAttr does not require an equals sign.  For every cursor whose
    view carries the attribute name followed, after an optional run of
    whitespace, by a double-quoted value (no `=` anywhere in between),
    getXmlAttr(name) still returns the quoted value: the boolean result of
    `copy.expect("=")` is discarded rather than treated as a failure. -/
theorem C10_getXmlAttr_no_equals :
    ∀ (pr tl prop ws v rest : List Char),
      (∀ c ∈ ws, isspace c = true) → v.contains '"' = false →
      ((PatternSeeker.mk pr
          (prop ++ (ws ++ ('"' :: (v ++ ('"' :: rest))))) tl).getXmlAttr
        prop).1.view = v := by
  intro pr tl prop ws v rest hws hv
  have hfind : findSub (prop ++ (ws ++ ('"' :: (v ++ ('"' :: rest))))) prop
      = some 0 := findSub_of_isPrefixOf (isPrefixOf_append_self _ _)
  have hseek : (PatternSeeker.mk pr
      (prop ++ (ws ++ ('"' :: (v ++ ('"' :: rest))))) tl).seekTo prop
        MoveMode.move_after =
      (true, ⟨pr ++ prop, ws ++ ('"' :: (v ++ ('"' :: rest))), tl⟩) := by
    unfold PatternSeeker.seekTo
    dsimp only
    rw [hfind]
    simp [PatternSeeker.advance, List.take_left, List.drop_left]
  have hq : isspace '"' = false := by decide
  have hskip : ∀ q : List Char, PatternSeeker.skipWhiteSpaces
      ⟨q, ws ++ ('"' :: (v ++ ('"' :: rest))), tl⟩ =
      ⟨q ++ ws, '"' :: (v ++ ('"' :: rest)), tl⟩ := by
    intro q
    unfold PatternSeeker.skipWhiteSpaces
    dsimp only
    rw [takeWhile_append_all hws '"' hq, dropWhile_append_all hws '"' hq]
  have hexp : ∀ q : List Char, PatternSeeker.expect
      ⟨q, '"' :: (v ++ ('"' :: rest)), tl⟩ ['='] =
      (false, ⟨q, '"' :: (v ++ ('"' :: rest)), tl⟩) := by
    intro q
    unfold PatternSeeker.expect
    rw [if_neg (by simp [List.isPrefixOf])]
  have hskip2 : ∀ q : List Char, PatternSeeker.skipWhiteSpaces
      ⟨q, '"' :: (v ++ ('"' :: rest)), tl⟩ =
      ⟨q, '"' :: (v ++ ('"' :: rest)), tl⟩ := by
    intro q
    simp [PatternSeeker.skipWhiteSpaces, List.takeWhile_cons,
      List.dropWhile_cons, hq]
  have h1 : findSub ('"' :: (v ++ ('"' :: rest))) ['"'] = some 0 :=
    findSub_of_isPrefixOf (by simp [List.isPrefixOf])
  have h2 : findFrom ('"' :: (v ++ ('"' :: rest))) ['"'] 1
      = some (v.length + 1) := by
    unfold findFrom
    rw [if_pos (by rw [List.length_cons]; exact Nat.le_add_left 1 _)]
    rw [show (('"' :: (v ++ ('"' :: rest))) : List Char).drop 1
        = v ++ ('"' :: rest) from rfl]
    rw [findSub_single_after '"' v rest hv]
    rfl
  have hbet : ∀ q : List Char, (PatternSeeker.extractBetween
      ⟨q, '"' :: (v ++ ('"' :: rest)), tl⟩
      [PatternSeeker.quoteChar] [PatternSeeker.quoteChar]
      MoveMode.none).1.view = v := by
    intro q
    unfold PatternSeeker.extractBetween
    simp only [PatternSeeker.quoteChar]
    rw [h1]
    simp only [List.length_cons, List.length_nil, Nat.zero_add]
    rw [h2]
    simp [PatternSeeker.subPS, List.take_left]
  simp [PatternSeeker.getXmlAttr, hseek, hskip, hexp, hskip2, hbet]

/-- C4: expected failures fault nowhere and are signaled only through a
    false boolean (`to`, `expect`), an absent optional (`takeUInt64`), or
    the empty sentinel cursor (all extract operations and structured
    helpers), leaving the receiver untouched on those failure paths; and on
    the empty sentinel itself every read operation is safe to call and
    reports empty or not-found: size 0, isEmpty, `startsWith`/`to` false
    for any nonempty literal, `takeUInt64` absent without advancing, and
    every extraction or structured helper returning the sentinel again. -/
theorem C4_error_handling :
    (∀ (p : PatternSeeker) (e : List Char) (mode : MoveMode),
      findSub p.view e = none → p.seekTo e mode = (false, p)) ∧
    (∀ (p : PatternSeeker) (e : List Char),
      p.startsWith e = false → p.expect e = (false, p)) ∧
    (∀ (p : PatternSeeker) (f t : List Char) (mode : MoveMode),
      findSub p.view f = none →
      p.extractBetween f t mode = (PatternSeeker.sentinel, p)) ∧
    (∀ (p : PatternSeeker) (f t : List Char) (mode : MoveMode) (i : Nat),
      findSub p.view f = some i →
      findFrom p.view t (i + f.length) = none →
      p.extractBetween f t mode = (PatternSeeker.sentinel, p)) ∧
    (∀ (p : PatternSeeker) (t : List Char) (mode : MoveMode),
      findSub p.view t = none →
      p.extractTo t mode = (PatternSeeker.sentinel, p)) ∧
    (∀ (p : PatternSeeker) (cs : List Char) (mode : MoveMode),
      findFirstOf p.view cs = none →
      p.extractUntilOneOf cs mode = (PatternSeeker.sentinel, p)) ∧
    (∀ (p : PatternSeeker) (s e : Char) (mode : MoveMode),
      findSub p.view [s] = none →
      p.extractBalanced s e mode = (PatternSeeker.sentinel, p)) ∧
    (∀ (p : PatternSeeker) (s e : Char) (mode : MoveMode) (i : Nat),
      findSub p.view [s] = some i →
      PatternSeeker.scanBal s e (p.view.drop (i + 1)) 1 = none →
      p.extractBalanced s e mode = (PatternSeeker.sentinel, p)) ∧
    (PatternSeeker.sentinel.size = 0 ∧
      PatternSeeker.sentinel.isEmpty = true) ∧
    (∀ e : List Char, e ≠ [] →
      PatternSeeker.sentinel.startsWith e = false) ∧
    (∀ (e : List Char) (mode : MoveMode), e ≠ [] →
      PatternSeeker.sentinel.seekTo e mode =
        (false, PatternSeeker.sentinel)) ∧
    (PatternSeeker.sentinel.takeUInt64 =
      some (none, PatternSeeker.sentinel)) ∧
    (∀ (f t : List Char) (mode : MoveMode),
      PatternSeeker.sentinel.extractBetween f t mode =
        (PatternSeeker.sentinel, PatternSeeker.sentinel)) ∧
    (∀ (s e : Char) (mode : MoveMode),
      PatternSeeker.sentinel.extractBalanced s e mode =
        (PatternSeeker.sentinel, PatternSeeker.sentinel)) ∧
    (∀ prop : List Char,
      (PatternSeeker.sentinel.getJsonProp prop).1 =
        PatternSeeker.sentinel) ∧
    (∀ (prop : List Char) (mode : MoveMode),
      (PatternSeeker.sentinel.getXmlTag prop mode).1 =
        PatternSeeker.sentinel) ∧
    (∀ (prop : List Char) (mode : MoveMode),
      (PatternSeeker.sentinel.getXmlTagBody prop mode).1 =
        PatternSeeker.sentinel) ∧
    (∀ prop : List Char,
      (PatternSeeker.sentinel.getXmlAttr prop).1 =
        PatternSeeker.sentinel) := by
  refine ⟨?_, ?_, ?_, ?_, ?_, ?_, ?_, ?_, ⟨rfl, rfl⟩, ?_, ?_, by decide,
    ?_, ?_, ?_, ?_, ?_, ?_⟩
  · intro p e mode h
    simp [PatternSeeker.seekTo, h]
  · intro p e h
    unfold PatternSeeker.startsWith at h
    simp [PatternSeeker.expect, h]
  · intro p f t mode h
    simp [PatternSeeker.extractBetween, h]
  · intro p f t mode i h1 h2
    simp [PatternSeeker.extractBetween, h1, h2]
  · intro p t mode h
    simp [PatternSeeker.extractTo, h]
  · intro p cs mode h
    simp [PatternSeeker.extractUntilOneOf, h]
  · intro p s e mode h
    simp [PatternSeeker.extractBalanced, h]
  · intro p s e mode i h1 h2
    simp [PatternSeeker.extractBalanced, h1, h2]
  · intro e he
    cases e with
    | nil => exact absurd rfl he
    | cons c t => rfl
  · intro e mode he
    cases e with
    | nil => exact absurd rfl he
    | cons c t => rfl
  · intro f t mode
    cases f with
    | nil => cases t <;> cases mode <;> rfl
    | cons c ft => rfl
  · intro s e mode
    rfl
  · intro prop
    rfl
  · intro prop mode
    rfl
  · intro prop mode
    rfl
  · intro prop
    cases prop with
    | nil => rfl
    | cons c t => rfl

/-- C4 witness: concrete instances of the hypothesis-bearing conjuncts —
    `to` on a view lacking the literal, `expect` on a non-matching view,
    and reads on the empty sentinel. -/
theorem C4_error_handling_witness :
    (PatternSeeker.mkRoot ['a', 'b'] []).seekTo ['z'] MoveMode.move_after =
      (false, PatternSeeker.mkRoot ['a', 'b'] []) ∧
    (PatternSeeker.mkRoot ['a', 'b'] []).expect ['z'] =
      (false, PatternSeeker.mkRoot ['a', 'b'] []) ∧
    PatternSeeker.sentinel.startsWith ['z'] = false ∧
    PatternSeeker.sentinel.seekTo ['z'] MoveMode.move_after =
      (false, PatternSeeker.sentinel) := by
  refine ⟨?_, ?_, ?_, ?_⟩
  · exact C4_error_handling.1 (PatternSeeker.mkRoot ['a', 'b'] []) ['z']
      MoveMode.move_after (by decide)
  · exact C4_error_handling.2.1 (PatternSeeker.mkRoot ['a', 'b'] []) ['z']
      (by decide)
  · exact C4_error_handling.2.2.2.2.2.2.2.2.2.1 ['z'] (by decide)
  · exact C4_error_handling.2.2.2.2.2.2.2.2.2.2.1 ['z'] MoveMode.move_after
      (by decide)

/-- C5: the two-char extract finds the first occurrence of the start
    character, scans forward with a depth counter (up on start, down on
    end), and returns the slice from that first start character through the
    end character that first brings the depth back to zero; it returns the
    empty sentinel, leaving the receiver unchanged, when the depth never
    returns to zero before the view ends.  On the two-level object of the
    spec it returns the whole string, not the inner object. -/
theorem C5_extractBalanced :
    (((PatternSeeker.mkRoot bracesInput []).extractBalanced '{' '}'
        MoveMode.none).1.view = bracesInput) ∧
    ∀ (p : PatternSeeker) (s e : Char) (mode : MoveMode), s ≠ e →
      ((∀ i, ¬ occursAt [s] p.view i) →
        p.extractBalanced s e mode = (PatternSeeker.sentinel, p)) ∧
      (∀ i, firstOccAt [s] p.view i →
        ((∀ n, ¬ depthClosesAt s e (p.view.drop (i + 1)) n) →
          p.extractBalanced s e mode = (PatternSeeker.sentinel, p)) ∧
        (∀ n, depthClosesAt s e (p.view.drop (i + 1)) n →
          (p.extractBalanced s e mode).1.view =
            (p.view.drop i).take (n + 1))) := by
  constructor
  · decide
  · intro p s e mode hne
    constructor
    · intro hno
      have hfs : findSub p.view [s] = none := by
        cases hh : findSub p.view [s] with
        | none => rfl
        | some i => exact absurd (findSub_some hh).1 (hno i)
      simp [PatternSeeker.extractBalanced, hfs]
    · intro i hfirst
      have hfs : findSub p.view [s] = some i := firstOccAt_findSub hfirst
      constructor
      · intro hnone
        have hsc : PatternSeeker.scanBal s e (p.view.drop (i + 1)) 1
            = none := by
          cases hh : PatternSeeker.scanBal s e (p.view.drop (i + 1)) 1 with
          | none => rfl
          | some k =>
            obtain ⟨hk1, hk2, hk3, hk4⟩ :=
              scanBal_sound s e hne _ 1 k Nat.one_pos hh
            exact absurd ⟨hk1, hk2, hk3, hk4⟩ (hnone k)
        simp [PatternSeeker.extractBalanced, hfs, hsc]
      · intro n hn
        have hsc : PatternSeeker.scanBal s e (p.view.drop (i + 1)) 1
            = some n := by
          cases hh : PatternSeeker.scanBal s e (p.view.drop (i + 1)) 1 with
          | none =>
            have hlt := scanBal_complete s e hne _ 1 Nat.one_pos hh n hn.2.1
            have heq := hn.2.2.1
            omega
          | some k =>
            obtain ⟨hk1, hk2, hk3, hk4⟩ :=
              scanBal_sound s e hne _ 1 k Nat.one_pos hh
            rw [depthClosesAt_unique hn ⟨hk1, hk2, hk3, hk4⟩]
        have harith : i + 1 + n - i = n + 1 := by omega
        cases mode <;>
          simp [PatternSeeker.extractBalanced, hfs, hsc, PatternSeeker.subPS,
            harith]

/-- C5 witness: the general part of the theorem applied to the view `(x)`
    with brackets `(` and `)`. -/
theorem C5_extractBalanced_witness :
    ((PatternSeeker.mkRoot ['(', 'x', ')'] []).extractBalanced '(' ')'
        MoveMode.none).1.view = ['(', 'x', ')'] := by
  have h := ((C5_extractBalanced.2 (PatternSeeker.mkRoot ['(', 'x', ')'] [])
      '(' ')' MoveMode.none (by decide)).2 0 (by decide)).2 2 (by decide)
  exact h.trans (by decide)

/-- C6: the two-string extract finds the first occurrence of `from` in the
    view, then the first occurrence of `to` searching only after the end of
    that occurrence, and returns the text strictly between them; it returns
    the empty sentinel and leaves the receiver unchanged when either
    delimiter is absent.  On `Hello, <name>World</name>!` it extracts
    `World`. -/
theorem C6_extractBetween :
    (((PatternSeeker.mkRoot helloInput []).extractBetween
        ['<', 'n', 'a', 'm', 'e', '>'] ['<', '/', 'n', 'a', 'm', 'e', '>']
        MoveMode.none).1.view = ['W', 'o', 'r', 'l', 'd']) ∧
    ∀ (p : PatternSeeker) (f t : List Char) (mode : MoveMode),
      ((∀ i, ¬ occursAt f p.view i) →
        p.extractBetween f t mode = (PatternSeeker.sentinel, p)) ∧
      (∀ i, firstOccAt f p.view i →
        (∀ j, i + f.length ≤ j → ¬ occursAt t p.view j) →
        p.extractBetween f t mode = (PatternSeeker.sentinel, p)) ∧
      (∀ i j, firstOccAt f p.view i → i + f.length ≤ j →
        occursAt t p.view j →
        (∀ j', i + f.length ≤ j' → j' < j → ¬ occursAt t p.view j') →
        (p.extractBetween f t mode).1.view =
          (p.view.drop (i + f.length)).take (j - (i + f.length))) := by
  constructor
  · decide
  · intro p f t mode
    refine ⟨?_, ?_, ?_⟩
    · intro hno
      have hfs : findSub p.view f = none := by
        cases hh : findSub p.view f with
        | none => rfl
        | some i => exact absurd (findSub_some hh).1 (hno i)
      simp [PatternSeeker.extractBetween, hfs]
    · intro i hfirst hnot
      have hfs : findSub p.view f = some i := firstOccAt_findSub hfirst
      have hff : findFrom p.view t (i + f.length) = none := by
        cases hh : findFrom p.view t (i + f.length) with
        | none => rfl
        | some j =>
          obtain ⟨hj1, hj2, -⟩ := findFrom_some hh
          exact absurd hj2 (hnot j hj1)
      simp [PatternSeeker.extractBetween, hfs, hff]
    · intro i j hfirst hij hocc hmin
      have hfs : findSub p.view f = some i := firstOccAt_findSub hfirst
      have hstart : i + f.length ≤ p.view.length :=
        firstOcc_add_length_le hfirst
      have hff : findFrom p.view t (i + f.length) = some j :=
        findFrom_of_firstOcc_from hstart hij hocc hmin
      cases mode <;>
        simp [PatternSeeker.extractBetween, hfs, hff, PatternSeeker.subPS]

/-- C6 witness: the general part of the theorem applied to the view
    `xabyc` with delimiters `a` and `y`. -/
theorem C6_extractBetween_witness :
    ((PatternSeeker.mkRoot ['x', 'a', 'b', 'y', 'c'] []).extractBetween
        ['a'] ['y'] MoveMode.none).1.view = ['b'] := by
  have h := (C6_extractBetween.2
      (PatternSeeker.mkRoot ['x', 'a', 'b', 'y', 'c'] []) ['a'] ['y']
      MoveMode.none).2.2 1 3 (by decide) (by decide) (by decide)
      (by intro j' h1 h2
          simp only [List.length_cons, List.length_nil] at h1
          have hj : j' = 2 := by omega
          subst hj
          decide)
  exact h.trans (by decide)

/-- C8: JSON property round-trip on the test object of the repository:
    getJsonProp("name") yields the characters `John`, getJsonProp("age")
    yields `30`, getJsonProp("array") yields `[1,2,3]` with its brackets,
    and getJsonProp("obj") yields the nested object text braces included. -/
theorem C8_json_roundtrip :
    ((PatternSeeker.mkRoot jsonInput []).getJsonProp
        ['n', 'a', 'm', 'e']).1.view = ['J', 'o', 'h', 'n'] ∧
    ((PatternSeeker.mkRoot jsonInput []).getJsonProp
        ['a', 'g', 'e']).1.view = ['3', '0'] ∧
    ((PatternSeeker.mkRoot jsonInput []).getJsonProp
        ['a', 'r', 'r', 'a', 'y']).1.view =
      ['[', '1', ',', '2', ',', '3', ']'] ∧
    ((PatternSeeker.mkRoot jsonInput []).getJsonProp
        ['o', 'b', 'j']).1.view =
      ['{', '"', 'n', 'e', 's', 't', 'e', 'd', '"', ':', ' ',
       '"', 'v', 'a', 'l', 'u', 'e', '"', '}'] := by decide

/-- C10 witness: the general theorem applied to the view `id "123"` (no
    equals sign between the attribute name and the quoted value). -/
theorem C10_getXmlAttr_witness :
    ((PatternSeeker.mk []
        (['i', 'd'] ++ ([' '] ++ ('"' :: (['1', '2', '3'] ++ ('"' :: [])))))
        []).getXmlAttr ['i', 'd']).1.view = ['1', '2', '3'] :=
  C10_getXmlAttr_no_equals [] [] ['i', 'd'] [' '] ['1', '2', '3'] []
    (by decide) (by decide)

end PatterSeekerNS
